import Mathlib

/-!
Verification development for the pi42 commodity buy bot (`run.py`).

The script is shallowly embedded: Python floats are modelled as exact
rationals (`ℚ`), Python dicts keyed by symbol as functions
`String → Option _` (where `none` means the key is absent), and the
effectful pieces (HTTP POST outcome, the two clock reads inside
`trade_logic`) are passed in as explicit parameters.  Mutation of the
four module-level dicts (`prices`, `positions`, `orders`, `last_trade`)
is modelled by explicit state passing over the `State` structure.

Notes on fidelity choices:
* Python `round` is round-half-to-even (round half to even); `pyRound0`
  and `pyRound` implement it over exact rationals.
* `prices` values are only ever assigned by `on_price` as
  `float(price)`, hence never `None`; the dict is modelled as
  `String → Option ℚ` with `none` for an absent key, and the defensive
  `prices[sym] is None` test in `trade_logic` is subsumed by the
  `none` branch.
* `positions[sym]` is read only through `positions.get(sym)`, so an
  absent key and a key stored as `None` are indistinguishable; both are
  modelled as `none`.
* `last_trade` is a dict with keys exactly `SYMBOLS`; a lookup for any
  other symbol raises `KeyError`, modelled by `Except.error ()` in
  `trade_logic`.
* `hmac.new(secret, msg, sha256).hexdigest()` is embedded by a full
  SHA-256/HMAC implementation over byte lists (naturals reduced mod
  2^32), validated below against FIPS-180 and RFC 4231 test vectors.
-/

set_option maxRecDepth 100000

namespace Pi42

/-! ### Python string/rounding primitives -/

/-- Uppercase one character, as Python `str.upper` does for ASCII. -/
def chUpper (c : Char) : Char :=
  if 97 ≤ c.toNat ∧ c.toNat ≤ 122 then Char.ofNat (c.toNat - 32) else c

/-- Python `s.upper()` (ASCII range; the symbols used are ASCII). -/
def strUpper (s : String) : String := String.mk (s.data.map chUpper)

/-- Python `s.endswith(suffix)`. -/
def strEndsWith (s suffix : String) : Bool := suffix.data.isSuffixOf s.data

/-- Python `round(x)` to an integer: round half to even. -/
def pyRound0 (x : ℚ) : ℤ :=
  if x - ⌊x⌋ < 1 / 2 then ⌊x⌋
  else if 1 / 2 < x - ⌊x⌋ then ⌊x⌋ + 1
  else if ⌊x⌋ % 2 = 0 then ⌊x⌋ else ⌊x⌋ + 1

/-- Python `round(x, nd)` over exact rationals. -/
def pyRound (x : ℚ) (nd : ℕ) : ℚ := (pyRound0 (x * 10 ^ nd) : ℚ) / 10 ^ nd

/-- UTF-8 encoding of one character (Python `str.encode`). -/
def encodeChar (c : Char) : List ℕ :=
  let n := c.toNat
  if n < 128 then [n]
  else if n < 2048 then [192 + n / 64, 128 + n % 64]
  else if n < 65536 then [224 + n / 4096, 128 + n / 64 % 64, 128 + n % 64]
  else [240 + n / 262144, 128 + n / 4096 % 64, 128 + n / 64 % 64, 128 + n % 64]

/-- Python `s.encode()`: UTF-8 bytes of a string. -/
def utf8Bytes (s : String) : List ℕ := s.data.foldr (fun c acc => encodeChar c ++ acc) []

/-! ### SHA-256 and HMAC (model of `hashlib.sha256` / `hmac.new`) -/

def w32 : ℕ := 4294967296

def rotr (n x : ℕ) : ℕ := (x / 2 ^ n + x % 2 ^ n * 2 ^ (32 - n)) % w32

def shr (n x : ℕ) : ℕ := x / 2 ^ n

def not32 (x : ℕ) : ℕ := 4294967295 - x % w32

def bigS0 (x : ℕ) : ℕ := rotr 2 x ^^^ rotr 13 x ^^^ rotr 22 x

def bigS1 (x : ℕ) : ℕ := rotr 6 x ^^^ rotr 11 x ^^^ rotr 25 x

def smlS0 (x : ℕ) : ℕ := rotr 7 x ^^^ rotr 18 x ^^^ shr 3 x

def smlS1 (x : ℕ) : ℕ := rotr 17 x ^^^ rotr 19 x ^^^ shr 10 x

def chF (e f g : ℕ) : ℕ := e &&& f ^^^ not32 e &&& g

def majF (a b c : ℕ) : ℕ := a &&& b ^^^ (a &&& c) ^^^ (b &&& c)

def K256 : Array ℕ := #[
  1116352408, 1899447441, 3049323471, 3921009573,
  961987163, 1508970993, 2453635748, 2870763221,
  3624381080, 310598401, 607225278, 1426881987,
  1925078388, 2162078206, 2614888103, 3248222580,
  3835390401, 4022224774, 264347078, 604807628,
  770255983, 1249150122, 1555081692, 1996064986,
  2554220882, 2821834349, 2952996808, 3210313671,
  3336571891, 3584528711, 113926993, 338241895,
  666307205, 773529912, 1294757372, 1396182291,
  1695183700, 1986661051, 2177026350, 2456956037,
  2730485921, 2820302411, 3259730800, 3345764771,
  3516065817, 3600352804, 4094571909, 275423344,
  430227734, 506948616, 659060556, 883997877,
  958139571, 1322822218, 1537002063, 1747873779,
  1955562222, 2024104815, 2227730452, 2361852424,
  2428436474, 2756734187, 3204031479, 3329325298]

def H0 : List ℕ :=
  [1779033703, 3144134277, 1013904242, 2773480762,
   1359893119, 2600822924, 528734635, 1541459225]

def be64 (n : ℕ) : List ℕ :=
  [n / 2 ^ 56 % 256, n / 2 ^ 48 % 256, n / 2 ^ 40 % 256, n / 2 ^ 32 % 256,
   n / 2 ^ 24 % 256, n / 2 ^ 16 % 256, n / 2 ^ 8 % 256, n % 256]

/-- FIPS-180 padding: append `0x80`, zeros to 56 mod 64, then the bit length. -/
def sha256pad (m : List ℕ) : List ℕ :=
  m ++ 128 :: List.replicate ((119 - m.length % 64) % 64) 0 ++ be64 (8 * m.length)

def toWords : List ℕ → List ℕ
  | a :: b :: c :: d :: rest => (a * 16777216 + b * 65536 + c * 256 + d) :: toWords rest
  | _ => []

def chunksAux : ℕ → List ℕ → List (List ℕ)
  | 0, _ => []
  | n + 1, l => l.take 16 :: chunksAux n (l.drop 16)

def chunks16 (l : List ℕ) : List (List ℕ) := chunksAux (l.length / 16) l

def schedule (w16 : List ℕ) : Array ℕ :=
  (List.range 48).foldl (fun w i =>
    w.push ((w.getD i 0 + smlS0 (w.getD (i + 1) 0) + w.getD (i + 9) 0 + smlS1 (w.getD (i + 14) 0)) % w32))
    w16.toArray

def roundStep (w : Array ℕ) (st : ℕ × ℕ × ℕ × ℕ × ℕ × ℕ × ℕ × ℕ) (i : ℕ) :
    ℕ × ℕ × ℕ × ℕ × ℕ × ℕ × ℕ × ℕ :=
  match st with
  | (a, b, c, d, e, f, g, h) =>
    let t1 := (h + bigS1 e + chF e f g + K256.getD i 0 + w.getD i 0) % w32
    let t2 := (bigS0 a + majF a b c) % w32
    ((t1 + t2) % w32, a, b, c, (d + t1) % w32, e, f, g)

def compressBlock (hs : List ℕ) (blk : List ℕ) : List ℕ :=
  let w := schedule blk
  match (List.range 64).foldl (roundStep w)
    (hs.getD 0 0, hs.getD 1 0, hs.getD 2 0, hs.getD 3 0,
     hs.getD 4 0, hs.getD 5 0, hs.getD 6 0, hs.getD 7 0) with
  | (a, b, c, d, e, f, g, h) =>
    [(hs.getD 0 0 + a) % w32, (hs.getD 1 0 + b) % w32, (hs.getD 2 0 + c) % w32,
     (hs.getD 3 0 + d) % w32, (hs.getD 4 0 + e) % w32, (hs.getD 5 0 + f) % w32,
     (hs.getD 6 0 + g) % w32, (hs.getD 7 0 + h) % w32]

def wordsToBytes (ws : List ℕ) : List ℕ :=
  ws.foldr (fun w acc => w / 16777216 % 256 :: w / 65536 % 256 :: w / 256 % 256 :: w % 256 :: acc) []

/-- SHA-256 of a byte list. -/
def sha256 (msg : List ℕ) : List ℕ :=
  wordsToBytes ((chunks16 (toWords (sha256pad msg))).foldl compressBlock H0)

/-- HMAC-SHA256 (RFC 2104) of a message under a key, both byte lists. -/
def hmac_sha256 (key msg : List ℕ) : List ℕ :=
  let k0 := if 64 < key.length then sha256 key else key
  let kp := k0 ++ List.replicate (64 - k0.length) 0
  sha256 (kp.map (fun b => b ^^^ 0x5c) ++ sha256 (kp.map (fun b => b ^^^ 0x36) ++ msg))

def byteHex (b : ℕ) : List Char := [Nat.digitChar (b / 16), Nat.digitChar (b % 16)]

/-- Python `.hexdigest()`: lowercase hex string of a byte list. -/
def hexDigest (bs : List ℕ) : String := String.mk (bs.foldr (fun b acc => byteHex b ++ acc) [])

/-! ### Configuration constants (run.py lines 24-47) -/

def SYMBOLS : List String := ["XPTINR", "XPDINR"]

def CAPITAL_PER_TRADE : ℚ := 10000

def RISE_PERCENT : ℚ := 3

def TP_PERCENT : ℚ := 1.5

def TRADE_COOLDOWN : ℚ := 20

def MIN_QTY : List (String × ℚ) := [("XPTINR", 0.005), ("XPDINR", 0.005)]

/-- The environment the script loads from `.env`.  `none` models an unset
variable; the script exits at startup unless both keys are truthy. -/
structure Env where
  API_KEY : Option String
  API_SECRET : Option String

/-- Python truthiness test for an optional string (`not s`). -/
def pyFalsyStr (s : Option String) : Bool :=
  match s with
  | none => true
  | some t => decide (t = "")

/-- Python truthiness test for an optional float (`o.get("price")`). -/
def pyTruthy (q : Option ℚ) : Bool :=
  match q with
  | none => false
  | some x => decide (x ≠ 0)

/-! ### Signatures (run.py lines 50-71) -/

/-- `generate_signature(secret, message)`: `None` when either argument is
falsy, otherwise the lowercase hex HMAC-SHA256 digest. -/
def generate_signature (secret message : Option String) : Option String :=
  match secret, message with
  | some s, some m =>
    if s = "" ∨ m = "" then none
    else some (hexDigest (hmac_sha256 (utf8Bytes s) (utf8Bytes m)))
  | _, _ => none

/-- `sign(query)`: the same digest keyed by the configured `API_SECRET`. -/
def sign (env : Env) (query : Option String) : Option String :=
  match env.API_SECRET, query with
  | some s, some q =>
    if s = "" ∨ q = "" then none
    else some (hexDigest (hmac_sha256 (utf8Bytes s) (utf8Bytes q)))
  | _, _ => none

/-! ### Price normalisation and targets (run.py lines 74-87) -/

/-- `normalize_price(sym, price)`: integer rounding for `*INR` pairs,
two decimals otherwise. -/
def normalize_price (sym : String) (price : ℚ) : ℚ :=
  if strEndsWith sym "INR" then (pyRound0 price : ℚ) else pyRound price 2

/-- `calculate_target(sym, entry)`: take profit `TP_PERCENT` above entry. -/
def calculate_target (sym : String) (entry : ℚ) : ℚ :=
  normalize_price sym (entry * (1 + TP_PERCENT / 100))

/-! ### Global state (run.py lines 43-47) -/

/-- One entry of an `orders[sym]` list as read by `get_lowest_buy`:
only `side` and `price` are consulted. -/
structure Order where
  side : Option String
  price : Option ℚ
deriving DecidableEq

/-- One exchange position dict as read by the script. -/
structure Position where
  contractPair : Option String
  entryPrice : Option ℚ
  quantity : Option ℚ
deriving DecidableEq

/-- The four module-level dicts. -/
structure State where
  prices : String → Option ℚ
  positions : String → Option Position
  orders : String → Option (List Order)
  last_trade : String → Option ℚ

/-- The state at program start: empty dicts, `last_trade` zero for each
configured symbol. -/
def initialState : State where
  prices := fun _ => none
  positions := fun _ => none
  orders := fun _ => none
  last_trade := fun s => if s ∈ SYMBOLS then some 0 else none

/-! ### Quantity calculation (run.py lines 90-103) -/

/-- `calculate_order_qty(sym)`: capital divided by price, floored to a
multiple of the per-symbol step, rounded to 6 decimals; `None` when there
is no (or a zero) price or the result is below one step. -/
def calculate_order_qty (st : State) (sym : String) : Option ℚ :=
  match st.prices sym with
  | none => none
  | some price =>
    if price = 0 then none
    else
      let step := (MIN_QTY.lookup sym).getD 0.001
      let raw := CAPITAL_PER_TRADE / price
      let qty := (⌊raw / step⌋ : ℚ) * step
      if step ≤ qty then some (pyRound qty 6) else none

/-! ### Order data (run.py lines 106-129) -/

/-- `get_lowest_buy(sym)`: the minimum price among BUY entries of
`orders[sym]` with a truthy price; `None` when absent or empty. -/
def get_lowest_buy (st : State) (sym : String) : Option ℚ :=
  match st.orders sym with
  | none => none
  | some os =>
    (os.filterMap (fun o =>
      if o.side = some "BUY" ∧ pyTruthy o.price = true then o.price else none)).min?

/-- `get_trigger_price(sym)`: the lowest BUY price discounted by
`RISE_PERCENT` and normalised; `None` when no lowest buy is available. -/
def get_trigger_price (st : State) (sym : String) : Option ℚ :=
  match get_lowest_buy st sym with
  | none => none
  | some lowest =>
    if lowest = 0 then none
    else some (normalize_price sym (lowest * (1 - RISE_PERCENT / 100)))

/-! ### Placing a market buy (run.py lines 132-206) -/

/-- The JSON body fields of the place-order request. -/
structure OrderRequest where
  timestamp : String
  placeType : String
  quantity : ℚ
  side : String
  price : ℚ
  symbol : String
  type : String
  reduceOnly : Bool
  marginAsset : String
  deviceType : String
  userCategory : String
  takeProfitPrice : ℚ
deriving DecidableEq

/-- Decimal-free rendering of a rational for the JSON body.  Python
serialises floats in shortest-roundtrip decimal; only the fact that the
body is a fixed nonempty function of the request matters downstream. -/
def ratStr (q : ℚ) : String := toString q.num ++ "/" ++ toString q.den

/-- `json.dumps(params, compact separators)` over the request fields,
in dict insertion order. -/
def jsonBody (req : OrderRequest) : String :=
  "\x7b\"timestamp\":\"" ++ req.timestamp ++ "\",\"placeType\":\"" ++ req.placeType ++
  "\",\"quantity\":" ++ ratStr req.quantity ++ ",\"side\":\"" ++ req.side ++
  "\",\"price\":" ++ ratStr req.price ++ ",\"symbol\":\"" ++ req.symbol ++
  "\",\"type\":\"" ++ req.type ++ "\",\"reduceOnly\":" ++
  (if req.reduceOnly then "true" else "false") ++
  ",\"marginAsset\":\"" ++ req.marginAsset ++ "\",\"deviceType\":\"" ++ req.deviceType ++
  "\",\"userCategory\":\"" ++ req.userCategory ++ "\",\"takeProfitPrice\":" ++
  ratStr req.takeProfitPrice ++ "\x7d"

/-- `place_market_buy(sym)`.  Returns the request that was POSTed (if
any) and the boolean result of the function.  `postRaises` tells whether
`requests.post` raises; the response itself is never consulted, so a
completed POST yields `True` regardless of its status or body. -/
def place_market_buy (env : Env) (nowMs : ℕ) (postRaises : Bool) (st : State) (sym : String) :
    Option OrderRequest × Bool :=
  match st.prices sym with
  | none => (none, false)
  | some p =>
    match calculate_order_qty st sym with
    | none => (none, false)
    | some qty =>
      if qty = 0 then (none, false)
      else
        let entry := normalize_price sym p
        let tp := calculate_target sym entry
        let req : OrderRequest :=
          { timestamp := toString nowMs
            placeType := "ORDER_FORM"
            quantity := qty
            side := "BUY"
            price := 0
            symbol := sym
            type := "MARKET"
            reduceOnly := false
            marginAsset := "INR"
            deviceType := "WEB"
            userCategory := "EXTERNAL"
            takeProfitPrice := tp }
        match generate_signature env.API_SECRET (some (jsonBody req)) with
        | none => (none, false)
        | some _ => (some req, !postRaises)

/-! ### Trade logic (run.py lines 209-242) -/

/-- What one `trade_logic` call did: nothing, a first-long attempt, or
an add-on-dip attempt.  The payload is the request POSTed by
`place_market_buy`, if any. -/
inductive TradeAction where
  | noTrade
  | firstBuy (req : Option OrderRequest)
  | addBuy (req : Option OrderRequest)
deriving DecidableEq

/-- `trade_logic(sym)`.  `now` is the clock at the cooldown check and
`now2` the clock at the `last_trade[sym] = time.time()` assignment.
A symbol outside `last_trade` raises `KeyError` (`Except.error`). -/
def trade_logic (env : Env) (now now2 : ℚ) (nowMs : ℕ) (postRaises : Bool)
    (st : State) (sym : String) : Except Unit (State × TradeAction) :=
  match st.prices sym with
  | none => .ok (st, .noTrade)
  | some price =>
    match st.last_trade sym with
    | none => .error ()
    | some t =>
      if now - t < TRADE_COOLDOWN then .ok (st, .noTrade)
      else
        match st.positions sym with
        | none =>
          if (place_market_buy env nowMs postRaises st sym).2 then
            .ok ({st with last_trade := fun x => if x = sym then some now2 else st.last_trade x},
                 .firstBuy (place_market_buy env nowMs postRaises st sym).1)
          else .ok (st, .firstBuy (place_market_buy env nowMs postRaises st sym).1)
        | some _ =>
          match get_trigger_price st sym with
          | none => .ok (st, .noTrade)
          | some trigger =>
            if trigger = 0 then .ok (st, .noTrade)
            else if price ≤ trigger then
              if (place_market_buy env nowMs postRaises st sym).2 then
                .ok ({st with last_trade := fun x => if x = sym then some now2 else st.last_trade x},
                     .addBuy (place_market_buy env nowMs postRaises st sym).1)
              else .ok (st, .addBuy (place_market_buy env nowMs postRaises st sym).1)
            else .ok (st, .noTrade)

/-! ### Positions polling (run.py lines 245-294) -/

/-- One `/v1/positions/OPEN` response: HTTP status and parsed JSON list. -/
structure FetchResp where
  status : ℕ
  data : List Position

def queryStr (sym : String) (ts : ℕ) : String :=
  "symbol=" ++ sym ++ "&timestamp=" ++ toString ts

def setPosition (st : State) (sym : String) (v : Option Position) : State :=
  {st with positions := fun x => if x = sym then v else st.positions x}

/-- One non-raising pass of the body of `fetch_positions_loop`: for each
configured symbol, sign the query (skipping the symbol when signing
fails), then store `None` on a non-200 status or empty body, else the
first entry whose `contractPair` matches. -/
def fetch_positions_iteration (env : Env) (ts : ℕ) (resp : String → FetchResp) (st : State) :
    State :=
  SYMBOLS.foldl (fun s sym =>
    match sign env (some (queryStr sym ts)) with
    | none => s
    | some _ =>
      let r := resp sym
      if r.status ≠ 200 then setPosition s sym none
      else if r.data = [] then setPosition s sym none
      else setPosition s sym (r.data.find? (fun p => decide (p.contractPair = some sym)))) st

/-! ### Mark-price callback (run.py lines 347-359) -/

/-- One `markPriceUpdate` payload: the `"s"` and `"p"` fields. -/
structure PriceEvent where
  s : Option String
  p : Option ℚ

/-- `on_price(data)`: store the price under the uppercased symbol and run
`trade_logic`.  When `trade_logic` raises (unknown symbol), the price
assignment that already happened persists. -/
def on_price (env : Env) (now now2 : ℚ) (nowMs : ℕ) (postRaises : Bool)
    (ev : PriceEvent) (st : State) : State :=
  let sym := strUpper (ev.s.getD "")
  match ev.p with
  | none => st
  | some pv =>
    if sym = "" ∨ pv = 0 then st
    else
      let st1 := {st with prices := fun x => if x = sym then some pv else st.prices x}
      match trade_logic env now now2 nowMs postRaises st1 sym with
      | .ok (st2, _) => st2
      | .error _ => st1

/-! ### Main reconnect loop (run.py lines 362-379) -/

/-- The constant `time.sleep(5)` in the `except` branch. -/
def RECONNECT_DELAY : ℕ := 5

structure MainLoopState where
  attempts : ℕ
  slept : ℕ
deriving DecidableEq

/-- One pass of the `while True` body: always another connect attempt;
a failed attempt adds the fixed reconnect delay. -/
def main_loop_step (failed : Bool) (s : MainLoopState) : MainLoopState :=
  { attempts := s.attempts + 1
    slept := s.slept + if failed then RECONNECT_DELAY else 0 }

/-- The loop after `n` passes, given which attempts fail. -/
def main_loop_run (fails : ℕ → Bool) : ℕ → MainLoopState
  | 0 => ⟨0, 0⟩
  | n + 1 => main_loop_step (fails n) (main_loop_run fails n)

/-! ### Observation helpers and concrete instances used in witnesses -/

/-- The action component of a `trade_logic` outcome (`none` when it raised). -/
def actionOf (r : Except Unit (State × TradeAction)) : Option TradeAction :=
  match r with
  | .ok (_, a) => some a
  | .error _ => none

/-- What one polling pass stores in `positions[sym]` from that per-symbol
exchange response, per the loop body of `fetch_positions_loop`. -/
def respPositions (resp : String → FetchResp) (sym : String) : Option Position :=
  if (resp sym).status ≠ 200 then none
  else if (resp sym).data = [] then none
  else (resp sym).data.find? (fun p => decide (p.contractPair = some sym))

/-- An environment with both keys set, as the startup check requires. -/
def wEnv : Env := ⟨some "k", some "s"⟩

/-- A state holding a price, a position and one open BUY order for XPTINR. -/
def wSt1 : State where
  prices := fun x => if x = "XPTINR" then some 100 else none
  positions := fun x => if x = "XPTINR" then some ⟨some "XPTINR", some 90, some 1⟩ else none
  orders := fun _ => none
  last_trade := fun x => if x = "XPTINR" then some 0 else none

/-- A state holding only a price of 2000 for XPTINR. -/
def wSt4 : State where
  prices := fun x => if x = "XPTINR" then some 2000 else none
  positions := fun _ => none
  orders := fun _ => none
  last_trade := fun x => if x = "XPTINR" then some 0 else none

/-- The request `place_market_buy` builds from `wSt4` at time 0. -/
def wReq : OrderRequest where
  timestamp := "0"
  placeType := "ORDER_FORM"
  quantity := 5
  side := "BUY"
  price := 0
  symbol := "XPTINR"
  type := "MARKET"
  reduceOnly := false
  marginAsset := "INR"
  deviceType := "WEB"
  userCategory := "EXTERNAL"
  takeProfitPrice := 2030

/-- A stale order entry that no polling pass ever rewrites. -/
def staleOrder : Order := ⟨some "BUY", some 100⟩

/-- An open-position dict as the positions endpoint returns it. -/
def freshPos : Position := ⟨some "XPTINR", some 100, some 1⟩

/-- Start state plus a pre-existing `orders` entry for XPTINR. -/
def c3State : State :=
  {initialState with orders := fun x => if x = "XPTINR" then some [staleOrder] else none}

/-- Exchange responses reporting one open XPTINR position. -/
def c3Resp : String → FetchResp := fun _ => ⟨200, [freshPos]⟩

/-! ## Supporting lemmas -/

/-- FIPS-180 test vector validating the SHA-256 embedding. -/
theorem sha256_test_vector :
    hexDigest (sha256 (utf8Bytes "abc")) =
      "ba7816bf8f01cfea414140de5dae2223b00361a396177a9cb410ff61f20015ad" := by decide

/-- RFC 4231 test case 1 validating the HMAC-SHA256 embedding. -/
theorem hmac_test_vector :
    hexDigest (hmac_sha256 (List.replicate 20 11) (utf8Bytes "Hi There")) =
      "b0344c61d8db38535ca8afceaf0bf12b881dc200c9833da726e9376c2e32cff7" := by decide

/-- The serialised order body is never the empty string. -/
theorem jsonBody_ne_empty (req : OrderRequest) : jsonBody req ≠ "" := by
  intro h
  have hl := congrArg String.length h
  simp only [jsonBody, String.length_append] at hl
  rw [show ("\x7b\"timestamp\":\"" : String).length = 14 from rfl] at hl
  rw [show ("" : String).length = 0 from rfl] at hl
  omega

/-- The positions query string is never the empty string. -/
theorem queryStr_ne_empty (sym : String) (ts : ℕ) : queryStr sym ts ≠ "" := by
  intro h
  have hl := congrArg String.length h
  simp only [queryStr, String.length_append] at hl
  rw [show ("symbol=" : String).length = 7 from rfl] at hl
  rw [show ("" : String).length = 0 from rfl] at hl
  omega

/-- Round-half-to-even is the identity on integers. -/
theorem pyRound0_intCast (n : ℤ) : pyRound0 (n : ℚ) = n := by
  unfold pyRound0
  rw [Int.floor_intCast, sub_self]
  norm_num

/-- Rounding to 6 decimals is exact on rationals with denominator
dividing 10^6. -/
theorem pyRound_eq_of_int (x : ℚ) (m : ℤ) (h : x * 10 ^ 6 = (m : ℚ)) : pyRound x 6 = x := by
  unfold pyRound
  rw [h, pyRound0_intCast, ← h]
  exact mul_div_cancel_right₀ x (by norm_num)

/-- Round-half-to-even never goes below the floor. -/
theorem pyRound0_ge_floor (x : ℚ) : ⌊x⌋ ≤ pyRound0 x := by
  unfold pyRound0
  repeat' split
  all_goals omega

/-- The per-symbol quantity step is 0.005 for the configured symbols and
0.001 (the `.get` default) otherwise. -/
theorem minQty_step (sym : String) :
    (MIN_QTY.lookup sym).getD 0.001 = 0.005 ∨ (MIN_QTY.lookup sym).getD 0.001 = 0.001 := by
  unfold MIN_QTY
  by_cases h1 : sym = "XPTINR"
  · simp [List.lookup, beq_iff_eq, h1]
  · by_cases h2 : sym = "XPDINR"
    · simp [List.lookup, beq_iff_eq, h1, h2]
    · have e1 : (sym == "XPTINR") = false := beq_eq_false_iff_ne.mpr h1
      have e2 : (sym == "XPDINR") = false := beq_eq_false_iff_ne.mpr h2
      simp [List.lookup, e1, e2]

/-- The quantity step is always positive. -/
theorem minQty_pos (sym : String) : 0 < (MIN_QTY.lookup sym).getD 0.001 := by
  rcases minQty_step sym with h | h <;> rw [h] <;> norm_num

/-- The quantity step is at least the default 0.001. -/
theorem minQty_ge (sym : String) : (1 : ℚ) / 1000 ≤ (MIN_QTY.lookup sym).getD 0.001 := by
  rcases minQty_step sym with h | h <;> rw [h] <;> norm_num

/-- Rounding to 6 decimals keeps a value of at least 0.001 positive. -/
theorem pyRound_pos (x : ℚ) (hx : (1 : ℚ) / 1000 ≤ x) : 0 < pyRound x 6 := by
  have h6 : (1 : ℚ) ≤ x * 10 ^ 6 := by nlinarith
  have hfl : (1 : ℤ) ≤ ⌊x * 10 ^ 6⌋ := Int.le_floor.mpr (by push_cast; linarith)
  have hr : (1 : ℤ) ≤ pyRound0 (x * 10 ^ 6) := le_trans hfl (pyRound0_ge_floor _)
  have hc : (0 : ℚ) < (pyRound0 (x * 10 ^ 6) : ℚ) := by exact_mod_cast lt_of_lt_of_le Int.zero_lt_one hr
  unfold pyRound
  exact div_pos hc (by norm_num)

/-- Rounding an integer multiple of the step to 6 decimals is exact. -/
theorem pyRound_qty_exact (n : ℤ) (sym : String) :
    pyRound ((n : ℚ) * (MIN_QTY.lookup sym).getD 0.001) 6 =
      (n : ℚ) * (MIN_QTY.lookup sym).getD 0.001 := by
  rcases minQty_step sym with h | h <;> rw [h]
  · exact pyRound_eq_of_int _ (n * 5000) (by push_cast; norm_num; ring)
  · exact pyRound_eq_of_int _ (n * 1000) (by push_cast; norm_num; ring)

/-- A quantity returned by `calculate_order_qty` is strictly positive
(so it is Python-truthy in `place_market_buy`). -/
theorem calculate_order_qty_pos (st : State) (sym : String) (q : ℚ)
    (hq : calculate_order_qty st sym = some q) : 0 < q := by
  simp only [calculate_order_qty] at hq
  split at hq
  · simp at hq
  · split at hq
    · simp at hq
    · split at hq
      · rename_i hstep
        simp only [Option.some.injEq] at hq
        subst hq
        exact pyRound_pos _ (le_trans (minQty_ge sym) hstep)
      · simp at hq

/-- A `trade_logic` call that returns normally leaves the state intact
except possibly for `last_trade[sym]`, which it can set to `now2`. -/
theorem trade_logic_ok_state (env : Env) (now now2 : ℚ) (nowMs : ℕ) (pr : Bool)
    (st : State) (sym : String) (r : State × TradeAction)
    (h : trade_logic env now now2 nowMs pr st sym = .ok r) :
    r.1 = st ∨
      (r.1 = {st with last_trade := fun x => if x = sym then some now2 else st.last_trade x} ∧
        (place_market_buy env nowMs pr st sym).2 = true) := by
  unfold trade_logic at h
  repeat' split at h
  all_goals first
    | exact Except.noConfusion h
    | (simp only [Except.ok.injEq] at h; subst h;
       first
        | exact Or.inl rfl
        | exact Or.inr ⟨rfl, by assumption⟩)

/-- Frame conditions of a normal `trade_logic` return. -/
theorem trade_logic_frame (env : Env) (now now2 : ℚ) (nowMs : ℕ) (pr : Bool)
    (st : State) (sym : String) (r : State × TradeAction)
    (h : trade_logic env now now2 nowMs pr st sym = .ok r) :
    r.1.prices = st.prices ∧ r.1.positions = st.positions ∧ r.1.orders = st.orders ∧
      ∀ x, x ≠ sym → r.1.last_trade x = st.last_trade x := by
  rcases trade_logic_ok_state env now now2 nowMs pr st sym r h with h1 | ⟨h1, _⟩ <;> rw [h1]
  · exact ⟨rfl, rfl, rfl, fun x _ => rfl⟩
  · refine ⟨rfl, rfl, rfl, fun x hx => ?_⟩
    simp [hx]

/-- Unfolding of `wordsToBytes` on a cons cell. -/
theorem wordsToBytes_cons (w : ℕ) (t : List ℕ) :
    wordsToBytes (w :: t) =
      w / 16777216 % 256 :: w / 65536 % 256 :: w / 256 % 256 :: w % 256 :: wordsToBytes t := rfl

/-- Every byte emitted by `wordsToBytes` is below 256. -/
theorem wordsToBytes_lt (ws : List ℕ) : ∀ b ∈ wordsToBytes ws, b < 256 := by
  induction ws with
  | nil => simp [wordsToBytes]
  | cons w t ih =>
    intro b hb
    rw [wordsToBytes_cons] at hb
    simp only [List.mem_cons] at hb
    rcases hb with rfl | rfl | rfl | rfl | hb
    · exact Nat.mod_lt _ (by norm_num)
    · exact Nat.mod_lt _ (by norm_num)
    · exact Nat.mod_lt _ (by norm_num)
    · exact Nat.mod_lt _ (by norm_num)
    · exact ih b hb

/-- SHA-256 output is a byte list. -/
theorem sha256_bytes_lt (m : List ℕ) : ∀ b ∈ sha256 m, b < 256 := by
  unfold sha256
  exact wordsToBytes_lt _

/-- `Nat.digitChar` sends digits below 16 into the lowercase hex alphabet. -/
theorem digitChar_mem_hex : ∀ n, n < 16 → Nat.digitChar n ∈ ("0123456789abcdef").data := by decide

/-- Both hex characters of a byte are lowercase hex characters. -/
theorem byteHex_mem_hex (b : ℕ) (hb : b < 256) :
    ∀ c ∈ byteHex b, c ∈ ("0123456789abcdef").data := by
  intro c hc
  unfold byteHex at hc
  simp only [List.mem_cons, List.not_mem_nil, or_false] at hc
  rcases hc with rfl | rfl
  · exact digitChar_mem_hex _ ((Nat.div_lt_iff_lt_mul (by norm_num)).mpr (by omega))
  · exact digitChar_mem_hex _ (Nat.mod_lt _ (by norm_num))

/-- `hexDigest` of a byte list only uses lowercase hex characters. -/
theorem hexDigest_mem_hex (bs : List ℕ) (hbs : ∀ b ∈ bs, b < 256) :
    ∀ c ∈ (hexDigest bs).data, c ∈ ("0123456789abcdef").data := by
  induction bs with
  | nil => simp [hexDigest]
  | cons b t ih =>
    intro c hc
    have he : (hexDigest (b :: t)).data = byteHex b ++ (hexDigest t).data := rfl
    rw [he, List.mem_append] at hc
    rcases hc with h | h
    · exact byteHex_mem_hex b (hbs b (by simp)) c h
    · exact ih (fun x hx => hbs x (by simp [hx])) c h

/-! ## Claim theorems -/

/-- C7: On every websocket connection failure, the main loop retries by
reconnecting after a constant 5-second delay, with no backoff escalation
and no retry limit; the loop never terminates.  Embedded as: the loop
trace is total, every pass is followed by another connect attempt no
matter how many attempts failed before, and a failed pass always adds the
same fixed 5-second delay, independent of the attempt number. -/
theorem C7_reconnect_loop (fails : ℕ → Bool) (n : ℕ) :
    RECONNECT_DELAY = 5 ∧
    (main_loop_run fails (n + 1)).attempts = n + 1 ∧
    (main_loop_run fails (n + 1)).slept =
      (main_loop_run fails n).slept + (if fails n then RECONNECT_DELAY else 0) := by
  refine ⟨rfl, ?_, rfl⟩
  induction n with
  | zero => rfl
  | succ m ih =>
    show (main_loop_run fails (m + 1)).attempts + 1 = m + 1 + 1
    rw [ih]

/-- C2: After a buy order is successfully placed for a symbol,
`trade_logic` places no further buy order for that symbol until at least
`TRADE_COOLDOWN` (20) seconds have elapsed since that buy; the cooldown
timer is per-symbol and is only reset when `place_market_buy` returns
`True` (in which case it is set to the clock value `now2` of that buy). -/
theorem C2_cooldown (env : Env) (now now2 : ℚ) (nowMs : ℕ) (pr : Bool)
    (st : State) (sym : String) (t : ℚ) :
    TRADE_COOLDOWN = 20 ∧
    (st.last_trade sym = some t → now - t < TRADE_COOLDOWN →
      trade_logic env now now2 nowMs pr st sym = .ok (st, .noTrade)) ∧
    (∀ r, trade_logic env now now2 nowMs pr st sym = .ok r →
      ∀ x, x ≠ sym → r.1.last_trade x = st.last_trade x) ∧
    (∀ r, trade_logic env now now2 nowMs pr st sym = .ok r →
      r.1.last_trade sym ≠ st.last_trade sym →
      (place_market_buy env nowMs pr st sym).2 = true ∧ r.1.last_trade sym = some now2) := by
  refine ⟨rfl, ?_, ?_, ?_⟩
  · intro ht hlt
    simp only [trade_logic, ht]
    split
    · rfl
    · rw [if_pos hlt]
  · intro r hr x hx
    exact (trade_logic_frame env now now2 nowMs pr st sym r hr).2.2.2 x hx
  · intro r hr hne
    rcases trade_logic_ok_state env now now2 nowMs pr st sym r hr with h1 | ⟨h1, hok⟩
    · rw [h1] at hne
      exact absurd rfl hne
    · refine ⟨hok, ?_⟩
      rw [h1]
      simp

/-- C2 witness: with `last_trade["XPTINR"] = 0` and the clock at 5
seconds, the cooldown blocks any trade and the state is untouched. -/
theorem C2_cooldown_witness :
    trade_logic wEnv 5 6 0 false initialState "XPTINR" = .ok (initialState, .noTrade) :=
  (C2_cooldown wEnv 5 6 0 false initialState "XPTINR" 0).2.1 (by decide)
    (by norm_num [TRADE_COOLDOWN])

/-- C5: For every symbol with a recorded non-`None` price, if no open
position is recorded and the cooldown has elapsed, `trade_logic` attempts
a first long by calling `place_market_buy` — recording the cooldown
timestamp exactly when it returns `True` — and the action taken is
independent of the `orders` dict, i.e. no trigger price is consulted. -/
theorem C5_first_buy (env : Env) (now now2 : ℚ) (nowMs : ℕ) (pr : Bool)
    (st : State) (sym : String) (p t : ℚ)
    (hp : st.prices sym = some p) (ht : st.last_trade sym = some t)
    (hcd : ¬ now - t < TRADE_COOLDOWN) (hpos : st.positions sym = none) :
    trade_logic env now now2 nowMs pr st sym =
      .ok ((if (place_market_buy env nowMs pr st sym).2 then
              {st with last_trade := fun x => if x = sym then some now2 else st.last_trade x}
            else st),
           .firstBuy (place_market_buy env nowMs pr st sym).1) ∧
    (∀ os, actionOf (trade_logic env now now2 nowMs pr {st with orders := os} sym) =
      actionOf (trade_logic env now now2 nowMs pr st sym)) := by
  have hbase : trade_logic env now now2 nowMs pr st sym =
      .ok ((if (place_market_buy env nowMs pr st sym).2 then
              {st with last_trade := fun x => if x = sym then some now2 else st.last_trade x}
            else st),
           .firstBuy (place_market_buy env nowMs pr st sym).1) := by
    simp only [trade_logic, hp, ht, hpos, if_neg hcd]
    split <;> rfl
  refine ⟨hbase, ?_⟩
  intro os
  have hplace : place_market_buy env nowMs pr {st with orders := os} sym =
      place_market_buy env nowMs pr st sym := rfl
  have hmod : trade_logic env now now2 nowMs pr {st with orders := os} sym =
      .ok ((if (place_market_buy env nowMs pr st sym).2 then
              {({st with orders := os} : State) with
                last_trade := fun x => if x = sym then some now2 else st.last_trade x}
            else {st with orders := os}),
           .firstBuy (place_market_buy env nowMs pr st sym).1) := by
    simp only [trade_logic, hp, ht, hpos, if_neg hcd, hplace]
    split <;> rfl
  rw [hbase, hmod]
  rfl

/-- C5 witness: a symbol with price 2000, no position and an expired
cooldown goes down the first-buy path. -/
theorem C5_first_buy_witness :
    trade_logic wEnv 25 30 0 false wSt4 "XPTINR" =
      .ok ((if (place_market_buy wEnv 0 false wSt4 "XPTINR").2 then
              {wSt4 with last_trade := fun x => if x = "XPTINR" then some 30 else wSt4.last_trade x}
            else wSt4),
           .firstBuy (place_market_buy wEnv 0 false wSt4 "XPTINR").1) :=
  (C5_first_buy wEnv 25 30 0 false wSt4 "XPTINR" 2000 0 rfl rfl
    (by norm_num [TRADE_COOLDOWN]) rfl).1

/-- C1: For every symbol that has a recorded price and an open position,
`trade_logic` places an additional market buy only when the current price
is at most the trigger price `normalize_price(sym,
lowest_buy * (1 - RISE_PERCENT/100))`; when no trigger price can be
computed, no additional buy is placed. -/
theorem C1_add_buy_trigger (env : Env) (now now2 : ℚ) (nowMs : ℕ) (pr : Bool)
    (st : State) (sym : String) (p : ℚ) (pos : Position)
    (hp : st.prices sym = some p) (hpos : st.positions sym = some pos) :
    (∀ st' req, trade_logic env now now2 nowMs pr st sym = .ok (st', .addBuy req) →
      ∃ low, get_lowest_buy st sym = some low ∧
        get_trigger_price st sym = some (normalize_price sym (low * (1 - RISE_PERCENT / 100))) ∧
        p ≤ normalize_price sym (low * (1 - RISE_PERCENT / 100))) ∧
    (get_trigger_price st sym = none →
      ∀ st' req, trade_logic env now now2 nowMs pr st sym ≠ .ok (st', .addBuy req)) := by
  constructor
  · intro st' req h
    simp only [trade_logic, hp, hpos] at h
    split at h
    · exact Except.noConfusion h
    · split at h
      · simp at h
      · split at h
        · simp at h
        · rename_i trig htrig
          split at h
          · simp at h
          · rename_i htz
            split at h
            · rename_i hle
              have hrep : ∃ low, get_lowest_buy st sym = some low ∧
                  trig = normalize_price sym (low * (1 - RISE_PERCENT / 100)) := by
                simp only [get_trigger_price] at htrig
                split at htrig
                · exact Option.noConfusion htrig
                · rename_i low hlow
                  split at htrig
                  · exact Option.noConfusion htrig
                  · simp only [Option.some.injEq] at htrig
                    exact ⟨low, hlow, htrig.symm⟩
              rcases hrep with ⟨low, hlow, rfl⟩
              exact ⟨low, hlow, htrig, hle⟩
            · simp at h
  · intro htrig st' req h
    simp only [trade_logic, hp, hpos, htrig] at h
    split at h
    · exact Except.noConfusion h
    · split at h
      · simp at h
      · simp at h

/-- C1 witness: with a price and a position but no computable trigger
(the `orders` dict has no entry), no add-on buy happens. -/
theorem C1_add_buy_trigger_witness :
    trade_logic wEnv 25 30 0 false wSt1 "XPTINR" ≠ .ok (wSt1, .addBuy none) :=
  ((C1_add_buy_trigger wEnv 25 30 0 false wSt1 "XPTINR" 100 ⟨some "XPTINR", some 90, some 1⟩
      rfl rfl).2 rfl) wSt1 none

/-- C10: Processing one mark-price update for a symbol modifies at most
`prices[s]` and `last_trade[s]` (s the uppercased payload symbol); it
never modifies `positions` or `orders`, leaves the per-symbol
`prices` and `last_trade` entries unchanged, and an update with a missing
or empty symbol or price modifies nothing. -/
theorem C10_on_price_frame (env : Env) (now now2 : ℚ) (nowMs : ℕ) (pr : Bool)
    (ev : PriceEvent) (st : State) :
    (on_price env now now2 nowMs pr ev st).positions = st.positions ∧
    (on_price env now now2 nowMs pr ev st).orders = st.orders ∧
    (∀ x, x ≠ strUpper (ev.s.getD "") →
      (on_price env now now2 nowMs pr ev st).prices x = st.prices x ∧
      (on_price env now now2 nowMs pr ev st).last_trade x = st.last_trade x) ∧
    ((ev.s = none ∨ ev.s = some "" ∨ ev.p = none ∨ ev.p = some 0) →
      on_price env now now2 nowMs pr ev st = st) := by
  cases hevp : ev.p with
  | none =>
    have hres : on_price env now now2 nowMs pr ev st = st := by
      simp only [on_price, hevp]
    rw [hres]
    exact ⟨rfl, rfl, fun x _ => ⟨rfl, rfl⟩, fun _ => rfl⟩
  | some pv =>
    by_cases hcond : strUpper (ev.s.getD "") = "" ∨ pv = 0
    · have hres : on_price env now now2 nowMs pr ev st = st := by
        simp only [on_price, hevp, if_pos hcond]
      rw [hres]
      exact ⟨rfl, rfl, fun x _ => ⟨rfl, rfl⟩, fun _ => rfl⟩
    · have hfr :
          (on_price env now now2 nowMs pr ev st).positions = st.positions ∧
          (on_price env now now2 nowMs pr ev st).orders = st.orders ∧
          (∀ x, x ≠ strUpper (ev.s.getD "") →
            (on_price env now now2 nowMs pr ev st).prices x = st.prices x ∧
            (on_price env now now2 nowMs pr ev st).last_trade x = st.last_trade x) := by
        simp only [on_price, hevp, if_neg hcond]
        split
        · rename_i st2 a heq
          obtain ⟨hpr, hpos2, hord, hlt⟩ :=
            trade_logic_frame env now now2 nowMs pr _ _ (st2, a) heq
          refine ⟨hpos2, hord, fun x hx => ⟨?_, ?_⟩⟩
          · rw [hpr]
            simp [hx]
          · exact hlt x hx
        · refine ⟨rfl, rfl, fun x hx => ⟨?_, rfl⟩⟩
          simp [hx]
      refine ⟨hfr.1, hfr.2.1, hfr.2.2, ?_⟩
      intro hfal
      exfalso
      rcases hfal with h | h | h | h
      · exact hcond (Or.inl (by rw [h]; rfl))
      · exact hcond (Or.inl (by rw [h]; rfl))
      · exact Option.noConfusion h
      · injection h with h2
        exact hcond (Or.inr h2)

/-- C10 witness: an update with an empty symbol leaves the whole state
untouched. -/
theorem C10_on_price_frame_witness :
    on_price wEnv 0 0 0 false ⟨some "", some 5⟩ initialState = initialState :=
  (C10_on_price_frame wEnv 0 0 0 false ⟨some "", some 5⟩ initialState).2.2.2
    (Or.inr (Or.inl rfl))

/-- Evaluation rule for round-half-to-even when the value sits strictly
below the midpoint above its floor. -/
theorem pyRound0_eval (x : ℚ) (n : ℤ) (hfl : ⌊x⌋ = n) (hlt : x - (n : ℚ) < 1 / 2) :
    pyRound0 x = n := by
  unfold pyRound0
  rw [hfl, if_pos hlt]

/-- `generate_signature` on truthy arguments yields the digest. -/
theorem generate_signature_some (s m : String) (hs : s ≠ "") (hm : m ≠ "") :
    generate_signature (some s) (some m) =
      some (hexDigest (hmac_sha256 (utf8Bytes s) (utf8Bytes m))) := by
  simp only [generate_signature]
  rw [if_neg (by simp [hs, hm])]

/-- Concrete quantity: 10000 of capital at price 2000 with step 0.005
buys exactly 5 units. -/
theorem wSt4_qty : calculate_order_qty wSt4 "XPTINR" = some 5 := by
  have hfl : (⌊(10000 : ℚ) / 2000 / 0.005⌋ : ℤ) = 1000 := by
    rw [Int.floor_eq_iff]
    norm_num
  have hfl2 : (⌊(1000 : ℚ) * 0.005 * 10 ^ 6⌋ : ℤ) = 5000000 := by
    rw [Int.floor_eq_iff]
    norm_num
  simp only [calculate_order_qty, CAPITAL_PER_TRADE, MIN_QTY, List.lookup, pyRound, pyRound0]
  rw [show wSt4.prices "XPTINR" = some (2000 : ℚ) from rfl]
  norm_num [hfl, hfl2]

/-- Concrete request: `place_market_buy` on `wSt4` builds `wReq` and,
with a completing POST, returns `True`. -/
theorem wSt4_place : place_market_buy wEnv 0 false wSt4 "XPTINR" = (some wReq, true) := by
  have e_entry : pyRound0 (2000 : ℚ) = 2000 :=
    pyRound0_eval _ 2000 (by rw [Int.floor_eq_iff]; norm_num) (by norm_num)
  have e_norm : normalize_price "XPTINR" (2000 : ℚ) = 2000 := by
    unfold normalize_price
    rw [show strEndsWith "XPTINR" "INR" = true from rfl]
    simp [e_entry]
  have e_tp0 : pyRound0 ((2000 : ℚ) * (1 + TP_PERCENT / 100)) = 2030 :=
    pyRound0_eval _ 2030 (by rw [Int.floor_eq_iff]; norm_num [TP_PERCENT])
      (by norm_num [TP_PERCENT])
  have e_ct : calculate_target "XPTINR" (2000 : ℚ) = 2030 := by
    unfold calculate_target normalize_price
    rw [show strEndsWith "XPTINR" "INR" = true from rfl]
    simp [e_tp0]
  simp only [place_market_buy, show wSt4.prices "XPTINR" = some (2000 : ℚ) from rfl, wSt4_qty]
  rw [if_neg (by norm_num : ¬(5 : ℚ) = 0)]
  rw [e_norm, e_ct]
  rw [show wEnv.API_SECRET = some "s" from rfl]
  rw [generate_signature_some "s" _ (by simp) (jsonBody_ne_empty _)]
  rfl

/-- C4: Every order the program places is a market buy with a fixed take
profit: type MARKET, side BUY, price 0, reduceOnly false, quantity from
`calculate_order_qty`, and take profit `normalize_price(sym,
entry * (1 + TP_PERCENT/100))` where entry is the normalised current
price and `TP_PERCENT` is 1.5. -/
theorem C4_market_buy_request (env : Env) (nowMs : ℕ) (pr : Bool) (st : State)
    (sym : String) (req : OrderRequest) (ok : Bool) (p : ℚ)
    (hp : st.prices sym = some p)
    (h : place_market_buy env nowMs pr st sym = (some req, ok)) :
    TP_PERCENT = 1.5 ∧ req.type = "MARKET" ∧ req.side = "BUY" ∧ req.price = 0 ∧
    req.reduceOnly = false ∧ calculate_order_qty st sym = some req.quantity ∧
    req.takeProfitPrice = normalize_price sym (normalize_price sym p * (1 + TP_PERCENT / 100)) := by
  simp only [place_market_buy, hp] at h
  split at h
  · simp at h
  · rename_i qty hqty
    split at h
    · simp at h
    · split at h
      · simp at h
      · simp only [Prod.mk.injEq, Option.some.injEq] at h
        obtain ⟨hreq, hok⟩ := h
        subst hreq
        exact ⟨rfl, rfl, rfl, rfl, rfl, hqty, rfl⟩

/-- C4 witness: the concrete request built from `wSt4`. -/
theorem C4_market_buy_request_witness :
    TP_PERCENT = 1.5 ∧ wReq.type = "MARKET" ∧ wReq.side = "BUY" ∧ wReq.price = 0 ∧
    wReq.reduceOnly = false ∧ calculate_order_qty wSt4 "XPTINR" = some wReq.quantity ∧
    wReq.takeProfitPrice =
      normalize_price "XPTINR" (normalize_price "XPTINR" 2000 * (1 + TP_PERCENT / 100)) :=
  C4_market_buy_request wEnv 0 false wSt4 "XPTINR" wReq true 2000 rfl wSt4_place

/-- C9: `place_market_buy` returns `False` and sends nothing when there
is no recorded price, when `calculate_order_qty` yields `None`, or when
signing fails; once the checks pass its result is `True` exactly when the
POST does not raise, regardless of the response. -/
theorem C9_place_market_buy (env : Env) (nowMs : ℕ) (pr : Bool) (st : State) (sym : String) :
    (st.prices sym = none → place_market_buy env nowMs pr st sym = (none, false)) ∧
    (calculate_order_qty st sym = none → place_market_buy env nowMs pr st sym = (none, false)) ∧
    (pyFalsyStr env.API_SECRET = true → place_market_buy env nowMs pr st sym = (none, false)) ∧
    (∀ q, calculate_order_qty st sym = some q → pyFalsyStr env.API_SECRET = false →
      (place_market_buy env nowMs pr st sym).2 = !pr) := by
  refine ⟨?_, ?_, ?_, ?_⟩
  · intro h
    simp only [place_market_buy, h]
  · intro h
    simp only [place_market_buy, h]
    split <;> rfl
  · intro h
    have hsig : ∀ m, generate_signature env.API_SECRET m = none := by
      intro m
      unfold pyFalsyStr at h
      cases hsec : env.API_SECRET with
      | none =>
        cases m with
        | none => rfl
        | some q => rfl
      | some s =>
        rw [hsec] at h
        have hs0 : s = "" := of_decide_eq_true h
        subst hs0
        cases m with
        | none => rfl
        | some q => simp [generate_signature]
    simp only [place_market_buy]
    split
    · rfl
    · split
      · rfl
      · split
        · rfl
        · rw [hsig]
  · intro q hq hsec
    simp only [place_market_buy, hq]
    split
    · rename_i hpn
      have hn : calculate_order_qty st sym = none := by
        simp only [calculate_order_qty, hpn]
      rw [hn] at hq
      exact Option.noConfusion hq
    · rw [if_neg (calculate_order_qty_pos st sym q hq).ne']
      obtain ⟨s, hsecs, hsne⟩ : ∃ s, env.API_SECRET = some s ∧ s ≠ "" := by
        unfold pyFalsyStr at hsec
        cases hsec2 : env.API_SECRET with
        | none =>
          rw [hsec2] at hsec
          simp at hsec
        | some s =>
          rw [hsec2] at hsec
          simp at hsec
          exact ⟨s, rfl, hsec⟩
      rw [hsecs]
      rw [generate_signature_some s _ hsne (jsonBody_ne_empty _)]

/-- C9 witness: with a computable quantity and a valid secret, a raising
POST makes `place_market_buy` report failure. -/
theorem C9_place_market_buy_witness :
    (place_market_buy wEnv 0 true wSt4 "XPTINR").2 = !true :=
  (C9_place_market_buy wEnv 0 true wSt4 "XPTINR").2.2.2 5 wSt4_qty rfl

/-- C8: For a symbol with a recorded positive price, any quantity
`calculate_order_qty` returns is at least the per-symbol step, an integer
multiple of that step, and worth at most `CAPITAL_PER_TRADE`; with no
recorded price, or a zero price, it returns `None`. -/
theorem C8_order_qty (st : State) (sym : String) :
    (st.prices sym = none → calculate_order_qty st sym = none) ∧
    (st.prices sym = some 0 → calculate_order_qty st sym = none) ∧
    (∀ p q, st.prices sym = some p → 0 < p → calculate_order_qty st sym = some q →
      (MIN_QTY.lookup sym).getD 0.001 ≤ q ∧
      (∃ n : ℤ, q = (n : ℚ) * (MIN_QTY.lookup sym).getD 0.001) ∧
      q * p ≤ CAPITAL_PER_TRADE) := by
  refine ⟨?_, ?_, ?_⟩
  · intro h
    simp only [calculate_order_qty, h]
  · intro h
    simp only [calculate_order_qty, h]
    norm_num
  · intro p q hp hppos hq
    simp only [calculate_order_qty, hp] at hq
    rw [if_neg hppos.ne'] at hq
    split at hq
    · rename_i hstep
      simp only [Option.some.injEq] at hq
      rw [pyRound_qty_exact ⌊CAPITAL_PER_TRADE / p / (MIN_QTY.lookup sym).getD 0.001⌋ sym] at hq
      subst hq
      refine ⟨hstep, ⟨_, rfl⟩, ?_⟩
      have hsp := minQty_pos sym
      have hfl : ((⌊CAPITAL_PER_TRADE / p / (MIN_QTY.lookup sym).getD 0.001⌋ : ℤ) : ℚ) ≤
          CAPITAL_PER_TRADE / p / (MIN_QTY.lookup sym).getD 0.001 := Int.floor_le _
      calc ((⌊CAPITAL_PER_TRADE / p / (MIN_QTY.lookup sym).getD 0.001⌋ : ℤ) : ℚ) *
            (MIN_QTY.lookup sym).getD 0.001 * p
          ≤ CAPITAL_PER_TRADE / p / (MIN_QTY.lookup sym).getD 0.001 *
            (MIN_QTY.lookup sym).getD 0.001 * p := by
            apply mul_le_mul_of_nonneg_right _ (le_of_lt hppos)
            exact mul_le_mul_of_nonneg_right hfl (le_of_lt hsp)
        _ = CAPITAL_PER_TRADE := by
            field_simp
            ring
    · exact Option.noConfusion hq

/-- C8 witness: at price 2000 the returned quantity 5 meets the bounds. -/
theorem C8_order_qty_witness :
    (MIN_QTY.lookup "XPTINR").getD 0.001 ≤ 5 ∧
    (∃ n : ℤ, (5 : ℚ) = (n : ℚ) * (MIN_QTY.lookup "XPTINR").getD 0.001) ∧
    (5 : ℚ) * 2000 ≤ CAPITAL_PER_TRADE :=
  (C8_order_qty wSt4 "XPTINR").2.2 2000 5 rfl (by norm_num) wSt4_qty

/-- C6: For nonempty secret and message, `generate_signature` returns
the lowercase hexadecimal HMAC-SHA256 digest of the message keyed by the
secret (the embedding is validated against standard test vectors and
shown to emit only lowercase hex characters); for an empty or missing
secret or message it returns `None`; and `sign` is `generate_signature`
specialised to the configured secret. -/
theorem C6_signature (secret message : String) (env : Env) (q : Option String)
    (hs : secret ≠ "") (hm : message ≠ "") :
    generate_signature (some secret) (some message) =
      some (hexDigest (hmac_sha256 (utf8Bytes secret) (utf8Bytes message))) ∧
    (∀ c ∈ (hexDigest (hmac_sha256 (utf8Bytes secret) (utf8Bytes message))).data,
      c ∈ ("0123456789abcdef").data) ∧
    generate_signature none (some message) = none ∧
    generate_signature (some secret) none = none ∧
    generate_signature (some "") (some message) = none ∧
    generate_signature (some secret) (some "") = none ∧
    sign env q = generate_signature env.API_SECRET q := by
  refine ⟨generate_signature_some _ _ hs hm, ?_, rfl, rfl, ?_, ?_, rfl⟩
  · exact hexDigest_mem_hex _ (sha256_bytes_lt _)
  · simp [generate_signature]
  · simp [generate_signature]

/-- C6 witness: concrete nonempty secret and message produce the digest. -/
theorem C6_signature_witness :
    generate_signature (some "key") (some "msg") =
      some (hexDigest (hmac_sha256 (utf8Bytes "key") (utf8Bytes "msg"))) :=
  (C6_signature "key" "msg" ⟨none, none⟩ none (by decide) (by decide)).1

/-- A truthy configured secret is a nonempty string. -/
theorem env_secret_truthy (env : Env) (h : pyFalsyStr env.API_SECRET = false) :
    ∃ s, env.API_SECRET = some s ∧ s ≠ "" := by
  unfold pyFalsyStr at h
  cases hsec : env.API_SECRET with
  | none =>
    rw [hsec] at h
    simp at h
  | some s =>
    rw [hsec] at h
    simp at h
    exact ⟨s, rfl, h⟩

/-- One polling-iteration step equals storing `respPositions`. -/
theorem fetch_step_eq (s : State) (sym : String) (r : FetchResp) :
    (if r.status ≠ 200 then setPosition s sym none
     else if r.data = [] then setPosition s sym none
     else setPosition s sym (r.data.find? (fun p => decide (p.contractPair = some sym)))) =
    setPosition s sym (respPositions (fun _ => r) sym) := by
  unfold respPositions
  split
  · rfl
  · split
    · rfl
    · rfl

/-- C3 counterexample: a polling iteration refreshes the `positions`
entry of a symbol but leaves a pre-existing stale `orders` entry exactly
as it was — the `orders` dict is never written anywhere in the program. -/
theorem C3_counterexample :
    c3State.orders "XPTINR" = some [staleOrder] ∧
    (fetch_positions_iteration wEnv 0 c3Resp c3State).orders "XPTINR" = some [staleOrder] ∧
    (fetch_positions_iteration wEnv 0 c3Resp c3State).positions "XPTINR" = some freshPos := by
  refine ⟨rfl, rfl, rfl⟩

/-- C3 amended: on each non-raising polling iteration, for every
configured symbol, the `positions` entry is refreshed from that per-symbol
exchange response, positions of other symbols are untouched, and the
`orders` dict is never updated. -/
theorem C3_amended (env : Env) (ts : ℕ) (resp : String → FetchResp) (st : State)
    (hsec : pyFalsyStr env.API_SECRET = false) :
    (fetch_positions_iteration env ts resp st).orders = st.orders ∧
    (∀ sym ∈ SYMBOLS,
      (fetch_positions_iteration env ts resp st).positions sym = respPositions resp sym) ∧
    (∀ sym, sym ∉ SYMBOLS →
      (fetch_positions_iteration env ts resp st).positions sym = st.positions sym) := by
  obtain ⟨s, hsecs, hsne⟩ := env_secret_truthy env hsec
  have hsign : ∀ sym, ∃ d, sign env (some (queryStr sym ts)) = some d := by
    intro sym
    refine ⟨hexDigest (hmac_sha256 (utf8Bytes s) (utf8Bytes (queryStr sym ts))), ?_⟩
    simp only [sign, hsecs]
    rw [if_neg (by simp [hsne, queryStr_ne_empty sym ts])]
  have hunf : fetch_positions_iteration env ts resp st =
      setPosition (setPosition st "XPTINR" (respPositions resp "XPTINR")) "XPDINR"
        (respPositions resp "XPDINR") := by
    unfold fetch_positions_iteration SYMBOLS
    simp only [List.foldl_cons, List.foldl_nil]
    obtain ⟨d1, h1⟩ := hsign "XPTINR"
    obtain ⟨d2, h2⟩ := hsign "XPDINR"
    rw [h1, h2]
    have e1 := fetch_step_eq st "XPTINR" (resp "XPTINR")
    have e2 := fetch_step_eq (setPosition st "XPTINR" (respPositions resp "XPTINR")) "XPDINR"
      (resp "XPDINR")
    simp only [respPositions] at e1 e2 ⊢
    rw [e1, e2]
  refine ⟨by rw [hunf]; rfl, ?_, ?_⟩
  · intro sym hmem
    rw [hunf]
    simp only [SYMBOLS, List.mem_cons, List.not_mem_nil, or_false] at hmem
    rcases hmem with rfl | rfl
    · simp [setPosition]
    · simp [setPosition]
  · intro sym hns
    rw [hunf]
    simp only [SYMBOLS, List.mem_cons, List.not_mem_nil, or_false] at hns
    push_neg at hns
    obtain ⟨h1, h2⟩ := hns
    simp [setPosition, h1, h2]

/-- C3 witness: a concrete iteration with a set secret leaves `orders`
untouched. -/
theorem C3_amended_witness :
    (fetch_positions_iteration wEnv 0 c3Resp c3State).orders = c3State.orders :=
  (C3_amended wEnv 0 c3Resp c3State rfl).1

end Pi42
